import Mathlib

/-!
Verification of the room-based WebSocket chat relay (src/server.js).

The development shallowly embeds the server's connection/room state and the
event handlers attached in `wss.on('connection')`, the `heartbeat` sweep, the
`ws.on('close')` cleanup and the `server.on('upgrade')` origin gate.  JS `Map`
and `Set` objects are embedded as association lists and duplicate-free lists;
connections are identified by natural numbers; `Date.now()` timestamps are
naturals.  JS truthiness of the relevant values (strings, the `roomName`
field which is `null` or a string) is made explicit.
-/

namespace WsChat

/-- JS values that can appear in a chat payload field (`text`, `sender`, ...).
Floats do not occur in the verified claims, so numbers are integers. -/
inductive JSVal where
  | str (s : String)
  | num (n : Int)
  | jbool (b : Bool)
  | null
deriving DecidableEq, Repr

/-- JS truthiness of a `JSVal` (empty string, 0, false, null are falsy). -/
def truthy : JSVal → Bool
  | .str s => !(s == "")
  | .num n => !(n == 0)
  | .jbool b => b
  | .null => false

/-- Embedding of one single-character global regex replace, e.g.
`text.replace(/&/g, '&amp;')`, on the character list of the string. -/
def replaceCharL (c : Char) (r : List Char) : List Char → List Char
  | [] => []
  | a :: l => (if a = c then r else [a]) ++ replaceCharL c r l

/-- String-level wrapper of `replaceCharL`. -/
def replaceChar (c : Char) (r : String) (s : String) : String :=
  String.mk (replaceCharL c r.data s.data)

/-- Embedding of `sanitize` (src/server.js lines 76-84): non-strings become
`''`; strings get the four sequential global replaces, ampersand first. -/
def sanitize (text : JSVal) : String :=
  match text with
  | .str s =>
      replaceChar '"' "&quot;"
        (replaceChar '>' "&gt;"
          (replaceChar '<' "&lt;"
            (replaceChar '&' "&amp;" s)))
  | _ => ""

/-- Escape of one character, following the spec's wording: the substitutions
`&`→`&amp;`, `<`→`&lt;`, `>`→`&gt;`, `"`→`&quot;` applied in a single
simultaneous pass over the text. -/
def escChar (ch : Char) : List Char :=
  if ch = '&' then "&amp;".data
  else if ch = '<' then "&lt;".data
  else if ch = '>' then "&gt;".data
  else if ch = '"' then "&quot;".data
  else [ch]

/-- Single-pass escape on character lists (spec-side definition, to be
compared with the code's `sanitize`). -/
def escapeL : List Char → List Char
  | [] => []
  | a :: l => escChar a ++ escapeL l

/-- Single-pass escape on strings (spec-side definition). -/
def escapeSpec (s : String) : String :=
  String.mk (escapeL s.data)

/-- A chat payload object: a `sender` field, a `text` field (either may be
absent) and arbitrary further fields, all passed through opaquely. -/
structure Payload where
  sender : Option JSVal
  text : Option JSVal
  rest : List (String × JSVal)
deriving DecidableEq, Repr

/-- Embedding of the chat branch's text mutation (src/server.js lines
158-160): `if (data.payload.text) { data.payload.text = sanitize(...); }`.
Only a truthy `text` is replaced; `sender` and other fields are untouched. -/
def sanitizePayload (p : Payload) : Payload :=
  match p.text with
  | some v => if truthy v then { p with text := some (JSVal.str (sanitize v)) } else p
  | none => p

/-- Models the host `JSON.stringify` on one payload field value.  No claim
depends on the output format; only the fact that a single string is computed
per broadcast matters. -/
def stringifyJSVal : JSVal → String
  | .str s => String.mk ('"' :: s.data ++ ['"'])
  | .num n => toString n
  | .jbool b => cond b "true" "false"
  | .null => "null"

/-- Models the host `JSON.stringify` on a payload (format irrelevant to every
claim; one string per broadcast is what is used). -/
def stringifyPayload (p : Payload) : String :=
  let fields :=
    (match p.sender with | some v => [("sender", v)] | none => []) ++
    (match p.text with | some v => [("text", v)] | none => []) ++ p.rest
  String.intercalate "," (fields.map (fun f => f.1 ++ ":" ++ stringifyJSVal f.2))

/-- WebSocket transport ready states (`ws.OPEN` etc.). -/
inductive ReadyState where
  | CONNECTING
  | OPEN
  | CLOSING
  | CLOSED
deriving DecidableEq, Repr

/-- Per-connection mutable fields set on the `ws` object: `isAlive`,
`lastMessageTime`, `roomName` (null or a string), and the transport state. -/
structure ConnState where
  isAlive : Bool
  lastMessageTime : Nat
  roomName : Option String
  readyState : ReadyState
deriving DecidableEq, Repr

/-- The `rooms` map (`Map<string, Set<ws>>`), as an association list from room
name to member list; keys are unique in every reachable state. -/
abbrev RoomMap := List (String × List Nat)

/-- `rooms.has(k)`. -/
def mapHas (m : RoomMap) (k : String) : Bool :=
  match m with
  | [] => false
  | e :: rest => if e.1 = k then true else mapHas rest k

/-- `rooms.get(k)`, defaulting to the empty member list when absent. -/
def mapGet (m : RoomMap) (k : String) : List Nat :=
  match m with
  | [] => []
  | e :: rest => if e.1 = k then e.2 else mapGet rest k

/-- In-place mutation of the set stored under key `k` (JS sets/mutates the
`Set` object held by the map). -/
def mapUpdate (m : RoomMap) (k : String) (f : List Nat → List Nat) : RoomMap :=
  match m with
  | [] => []
  | e :: rest => (if e.1 = k then (e.1, f e.2) else e) :: mapUpdate rest k f

/-- `rooms.delete(k)`. -/
def mapDelete (m : RoomMap) (k : String) : RoomMap :=
  match m with
  | [] => []
  | e :: rest => if e.1 = k then mapDelete rest k else e :: mapDelete rest k

/-- `rooms.set(k, new Set())`, only ever called when `!rooms.has(k)`;
JS `Map.set` appends a fresh key in insertion order. -/
def mapSetNew (m : RoomMap) (k : String) : RoomMap :=
  m ++ [(k, [])]

/-- `set.add(x)` on a JS `Set`: no-op when the element is present, otherwise
appended. -/
def setAdd (s : List Nat) (x : Nat) : List Nat :=
  if x ∈ s then s else s ++ [x]

/-- `set.delete(x)` on a JS `Set`. -/
def setDelete (s : List Nat) (x : Nat) : List Nat :=
  match s with
  | [] => []
  | y :: rest => if y = x then setDelete rest x else y :: setDelete rest x

/-- The whole server state: `wss.clients`, the per-connection fields, and the
`rooms` directory. -/
structure ServerState where
  clients : List Nat
  cs : Nat → ConnState
  rooms : RoomMap

/-- Pointwise update of one connection's fields. -/
def updateCS (st : ServerState) (c : Nat) (f : ConnState → ConnState) : ServerState :=
  { st with cs := fun n => if n = c then f (st.cs n) else st.cs n }

/-- JS truthiness of `ws.roomName` (null or the empty string are falsy). -/
def truthyRoom : Option String → Bool
  | none => false
  | some r => !(r == "")

/-- `MESSAGE_COOLDOWN_MS` (src/server.js line 91). -/
def MESSAGE_COOLDOWN_MS : Nat := 1000

/-- One decoded inbound frame, after `JSON.parse`: a parse failure, a join, a
chat (whose `payload` property may be missing, which makes the JS handler
throw at `data.payload.text` and be caught), or any other `type`. -/
inductive Frame where
  | malformed
  | join (room : String)
  | chat (payload : Option Payload)
  | other
deriving Repr

/-- Result of one `ws.on('message')` invocation: the new server state, the
broadcasts performed (serialized message together with its recipient list),
and whether the surrounding try/catch caught a thrown error. -/
structure MsgOut where
  st : ServerState
  broadcasts : List (String × List Nat)
  caughtError : Bool

/-- Embedding of the `ws.on('message')` handler (src/server.js lines
136-176) for connection `c`, with `Date.now()` equal to `now`.  The JS
mutation order is kept: in the chat branch `lastMessageTime` is written
before the (possibly throwing) access to `data.payload.text` and before the
room check. -/
def handleMessage (st : ServerState) (c : Nat) (now : Nat) (f : Frame) : MsgOut :=
  match f with
  | .malformed => ⟨st, [], true⟩
  | .other => ⟨st, [], false⟩
  | .join room =>
      let rooms1 :=
        match (st.cs c).roomName with
        | none => st.rooms
        | some rn =>
            if rn = "" then st.rooms
            else if mapHas st.rooms rn then mapUpdate st.rooms rn (fun s => setDelete s c)
            else st.rooms
      let st1 := updateCS st c (fun s => { s with roomName := some room })
      let rooms2 := if mapHas rooms1 room then rooms1 else mapSetNew rooms1 room
      let rooms3 := mapUpdate rooms2 room (fun s => setAdd s c)
      ⟨{ st1 with rooms := rooms3 }, [], false⟩
  | .chat payload =>
      if now - (st.cs c).lastMessageTime < MESSAGE_COOLDOWN_MS then ⟨st, [], false⟩
      else
        let st1 := updateCS st c (fun s => { s with lastMessageTime := now })
        match payload with
        | none => ⟨st1, [], true⟩
        | some p =>
            let p1 := sanitizePayload p
            match (st1.cs c).roomName with
            | none => ⟨st1, [], false⟩
            | some rn =>
                if rn = "" then ⟨st1, [], false⟩
                else if mapHas st1.rooms rn then
                  let roomClients := mapGet st1.rooms rn
                  let messageString := stringifyPayload p1
                  let recips := roomClients.filter (fun m => (st1.cs m).readyState == ReadyState.OPEN)
                  ⟨st1, [(messageString, recips)], false⟩
                else ⟨st1, [], false⟩

/-- Embedding of the `ws.on('close')` handler (src/server.js lines 178-187):
remove the connection from its room's member set and delete the room entry
when the set became empty. -/
def handleClose (st : ServerState) (c : Nat) : ServerState :=
  match (st.cs c).roomName with
  | none => st
  | some rn =>
      if rn = "" then st
      else if mapHas st.rooms rn then
        let members := setDelete (mapGet st.rooms rn) c
        let rooms' := if members.length = 0 then mapDelete st.rooms rn
                      else mapUpdate st.rooms rn (fun _ => members)
        { st with rooms := rooms' }
      else st

/-- Embedding of `ws.terminate()`: the transport is torn down (ready state
`CLOSED`, removal from `wss.clients` by the ws library) and the repository's
close handler runs. -/
def terminateConn (st : ServerState) (c : Nat) : ServerState :=
  let st1 := updateCS
    { st with clients := st.clients.filter (fun d => decide (d ≠ c)) }
    c (fun s => { s with readyState := ReadyState.CLOSED })
  handleClose st1 c

/-- One step of the `heartbeat` sweep (src/server.js lines 93-102) on one
connection, threading the state and the list of connections probed so far:
a dead connection is terminated and not probed; a live one has its flag
cleared and is pinged. -/
def sweepConn (acc : ServerState × List Nat) (c : Nat) : ServerState × List Nat :=
  if (acc.1.cs c).isAlive = false then (terminateConn acc.1 c, acc.2)
  else (updateCS acc.1 c (fun s => { s with isAlive := false }), acc.2 ++ [c])

/-- Embedding of one full `heartbeat` sweep over `wss.clients`; returns the
new state and the list of connections that were sent a probe. -/
def heartbeat (st : ServerState) : ServerState × List Nat :=
  st.clients.foldl sweepConn (st, [])

/-- Embedding of the `ws.on('pong')` handler (src/server.js lines 129-131). -/
def handlePong (st : ServerState) (c : Nat) : ServerState :=
  updateCS st c (fun s => { s with isAlive := true })

/-- Embedding of the `wss.on('connection')` initialisation (src/server.js
lines 127-134): `isAlive=true`, `lastMessageTime=0`, `roomName=null`, the
transport open, the connection added to `wss.clients`. -/
def initConn (st : ServerState) (c : Nat) : ServerState :=
  { st with
    clients := st.clients ++ [c],
    cs := fun n => if n = c then ⟨true, 0, none, ReadyState.OPEN⟩ else st.cs n }

/-- `ALLOWED_ORIGINS` (src/server.js lines 9-12). -/
def ALLOWED_ORIGINS : List String :=
  ["https://your-frontend-app.vercel.app", "http://localhost:3000"]

/-- JS truthiness of `request.headers.origin` (absent header is `undefined`). -/
def originTruthy : Option String → Bool
  | none => false
  | some s => !(s == "")

/-- `ALLOWED_ORIGINS.includes(origin)`. -/
def originIncluded : Option String → Bool
  | none => false
  | some s => ALLOWED_ORIGINS.contains s

/-- Observable outcome of the `server.on('upgrade')` handler for one attempt. -/
structure UpgradeOutcome where
  connectionCreated : Bool
  wrote401 : Bool
  socketDestroyed : Bool
deriving DecidableEq, Repr

/-- Embedding of the `server.on('upgrade')` handler (src/server.js lines
202-215): reject (write `HTTP/1.1 401 Unauthorized`, destroy the socket,
never call `handleUpgrade`) exactly when the origin is truthy and not in the
allow-list; otherwise complete the handshake and emit a connection. -/
def handleUpgrade (origin : Option String) : UpgradeOutcome :=
  if !originIncluded origin && originTruthy origin then ⟨false, true, true⟩
  else ⟨true, false, false⟩

/-- A concrete one-connection, one-room state used by witnesses. -/
def wStRoom : ServerState :=
  ⟨[0], fun _ => ⟨true, 0, some "R", ReadyState.OPEN⟩, [("R", [0])]⟩

/-- A concrete roomless-connection state used by witnesses. -/
def wStNoRoom : ServerState :=
  ⟨[0], fun _ => ⟨true, 0, none, ReadyState.OPEN⟩, []⟩

/-- A concrete state whose single connection is the sole member of room A. -/
def wStA : ServerState :=
  ⟨[0], fun _ => ⟨true, 0, some "A", ReadyState.OPEN⟩, [("A", [0])]⟩

/-- The empty server state (no clients, no rooms). -/
def reachInit : ServerState :=
  ⟨[], fun _ => ⟨true, 0, none, ReadyState.OPEN⟩, []⟩

/-- State reached from the empty server by admitting connection 0 and
processing its join of room A. -/
def reachA : ServerState :=
  (handleMessage (initConn reachInit 0) 0 2000 (Frame.join "A")).st

/-- State reached from `reachA` by processing connection 0's join of room B. -/
def reachAB : ServerState :=
  (handleMessage reachA 0 2000 (Frame.join "B")).st

/-! ### Lemmas about the embedded JS `Set` operations -/

theorem setDelete_eq_filter (s : List Nat) (x : Nat) :
    setDelete s x = s.filter (fun y => decide (y ≠ x)) := by
  induction s with
  | nil => rfl
  | cons y rest ih =>
      by_cases h : y = x
      · subst h
        simp [setDelete, ih, List.filter]
      · simp [setDelete, if_neg h, ih, List.filter, h]

theorem mem_setDelete {s : List Nat} {x a : Nat} :
    a ∈ setDelete s x ↔ a ∈ s ∧ a ≠ x := by
  rw [setDelete_eq_filter]
  simp [List.mem_filter]

theorem not_mem_setDelete_self {s : List Nat} {x : Nat} : x ∉ setDelete s x := by
  intro h
  exact (mem_setDelete.mp h).2 rfl

theorem mem_setAdd {s : List Nat} {x a : Nat} :
    a ∈ setAdd s x ↔ a ∈ s ∨ a = x := by
  unfold setAdd
  by_cases h : x ∈ s
  · rw [if_pos h]
    constructor
    · exact Or.inl
    · rintro (ha | rfl)
      · exact ha
      · exact h
  · rw [if_neg h]
    simp

theorem setAdd_of_mem {s : List Nat} {x : Nat} (h : x ∈ s) : setAdd s x = s := by
  simp [setAdd, if_pos h]

theorem count_setDelete_self (s : List Nat) (x : Nat) :
    (setDelete s x).count x = 0 :=
  List.count_eq_zero.mpr not_mem_setDelete_self

theorem count_setAdd_setDelete (s : List Nat) (x : Nat) :
    (setAdd (setDelete s x) x).count x = 1 := by
  unfold setAdd
  rw [if_neg not_mem_setDelete_self, List.count_append]
  rw [count_setDelete_self]
  simp

/-! ### Lemmas about the embedded JS `Map` operations -/

theorem mapHas_mapUpdate (m : RoomMap) (k k' : String) (f : List Nat → List Nat) :
    mapHas (mapUpdate m k f) k' = mapHas m k' := by
  induction m with
  | nil => rfl
  | cons e rest ih =>
      obtain ⟨k0, v0⟩ := e
      by_cases h : k0 = k
      · rw [mapUpdate, if_pos h]
        by_cases h' : k0 = k'
        · rw [mapHas, mapHas, if_pos h', if_pos h']
        · rw [mapHas, mapHas, if_neg h', if_neg h', ih]
      · rw [mapUpdate, if_neg h]
        by_cases h' : k0 = k'
        · rw [mapHas, mapHas, if_pos h', if_pos h']
        · rw [mapHas, mapHas, if_neg h', if_neg h', ih]

theorem mapGet_mapUpdate_self {m : RoomMap} {k : String} {f : List Nat → List Nat}
    (h : mapHas m k = true) :
    mapGet (mapUpdate m k f) k = f (mapGet m k) := by
  induction m with
  | nil => simp [mapHas] at h
  | cons e rest ih =>
      obtain ⟨k0, v0⟩ := e
      by_cases he : k0 = k
      · rw [mapUpdate, if_pos he, mapGet, if_pos he, mapGet, if_pos he]
      · rw [mapHas, if_neg he] at h
        rw [mapUpdate, if_neg he, mapGet, if_neg he, mapGet, if_neg he, ih h]

theorem mapGet_mapUpdate_ne {m : RoomMap} {k k' : String} {f : List Nat → List Nat}
    (h : k' ≠ k) :
    mapGet (mapUpdate m k f) k' = mapGet m k' := by
  induction m with
  | nil => rfl
  | cons e rest ih =>
      obtain ⟨k0, v0⟩ := e
      by_cases he : k0 = k
      · have hne : ¬(k0 = k') := by rw [he]; exact fun hh => h hh.symm
        rw [mapUpdate, if_pos he, mapGet, if_neg hne, mapGet, if_neg hne, ih]
      · rw [mapUpdate, if_neg he]
        by_cases he' : k0 = k'
        · rw [mapGet, if_pos he', mapGet, if_pos he']
        · rw [mapGet, if_neg he', mapGet, if_neg he', ih]

theorem mapGet_mapDelete_self (m : RoomMap) (k : String) :
    mapGet (mapDelete m k) k = [] := by
  induction m with
  | nil => rfl
  | cons e rest ih =>
      obtain ⟨k0, v0⟩ := e
      by_cases he : k0 = k
      · rw [mapDelete, if_pos he, ih]
      · rw [mapDelete, if_neg he, mapGet, if_neg he, ih]

theorem mapGet_mapDelete_ne {m : RoomMap} {k k' : String} (h : k' ≠ k) :
    mapGet (mapDelete m k) k' = mapGet m k' := by
  induction m with
  | nil => rfl
  | cons e rest ih =>
      obtain ⟨k0, v0⟩ := e
      by_cases he : k0 = k
      · have hne : ¬(k0 = k') := by rw [he]; exact fun hh => h hh.symm
        rw [mapDelete, if_pos he, mapGet, if_neg hne, ih]
      · rw [mapDelete, if_neg he]
        by_cases he' : k0 = k'
        · rw [mapGet, if_pos he', mapGet, if_pos he']
        · rw [mapGet, if_neg he', mapGet, if_neg he', ih]

theorem mapHas_of_mem_mapGet {m : RoomMap} {k : String} {a : Nat}
    (h : a ∈ mapGet m k) : mapHas m k = true := by
  induction m with
  | nil => simp [mapGet] at h
  | cons e rest ih =>
      obtain ⟨k0, v0⟩ := e
      by_cases he : k0 = k
      · rw [mapHas, if_pos he]
      · rw [mapGet, if_neg he] at h
        rw [mapHas, if_neg he, ih h]

theorem mapHas_mapSetNew_self (m : RoomMap) (k : String) :
    mapHas (mapSetNew m k) k = true := by
  induction m with
  | nil => simp [mapSetNew, mapHas]
  | cons e rest ih =>
      obtain ⟨k0, v0⟩ := e
      by_cases he : k0 = k
      · rw [mapSetNew, List.cons_append, mapHas, if_pos he]
      · rw [mapSetNew, List.cons_append, mapHas, if_neg he]
        exact ih

theorem mapHas_mapSetNew_of {m : RoomMap} {k k' : String}
    (h : mapHas m k' = true) : mapHas (mapSetNew m k) k' = true := by
  induction m with
  | nil => simp [mapHas] at h
  | cons e rest ih =>
      obtain ⟨k0, v0⟩ := e
      by_cases he : k0 = k'
      · rw [mapSetNew, List.cons_append, mapHas, if_pos he]
      · rw [mapHas, if_neg he] at h
        rw [mapSetNew, List.cons_append, mapHas, if_neg he]
        exact ih h

theorem mapGet_mapSetNew_ne {m : RoomMap} {k k' : String} (h : k' ≠ k) :
    mapGet (mapSetNew m k) k' = mapGet m k' := by
  induction m with
  | nil =>
      have hne : ¬(k = k') := fun hh => h hh.symm
      simp [mapSetNew, mapGet, hne]
  | cons e rest ih =>
      obtain ⟨k0, v0⟩ := e
      by_cases he : k0 = k'
      · rw [mapSetNew, List.cons_append, mapGet, if_pos he, mapGet, if_pos he]
      · rw [mapSetNew, List.cons_append, mapGet, if_neg he, mapGet, if_neg he]
        exact ih

theorem mapGet_mapSetNew_self {m : RoomMap} {k : String}
    (h : mapHas m k = false) : mapGet (mapSetNew m k) k = [] := by
  induction m with
  | nil => simp [mapSetNew, mapGet]
  | cons e rest ih =>
      obtain ⟨k0, v0⟩ := e
      by_cases he : k0 = k
      · rw [mapHas, if_pos he] at h
        exact absurd h (by simp)
      · rw [mapHas, if_neg he] at h
        rw [mapSetNew, List.cons_append, mapGet, if_neg he]
        exact ih h

/-! ### Lemmas about connection-state updates -/

theorem updateCS_cs_self (st : ServerState) (c : Nat) (f : ConnState → ConnState) :
    (updateCS st c f).cs c = f (st.cs c) := by
  simp [updateCS]

theorem updateCS_cs_ne {st : ServerState} {c d : Nat} {f : ConnState → ConnState}
    (h : d ≠ c) : (updateCS st c f).cs d = st.cs d := by
  simp [updateCS, h]

theorem updateCS_clients (st : ServerState) (c : Nat) (f : ConnState → ConnState) :
    (updateCS st c f).clients = st.clients := rfl

theorem updateCS_rooms (st : ServerState) (c : Nat) (f : ConnState → ConnState) :
    (updateCS st c f).rooms = st.rooms := rfl

/-! ### Lemmas about the close handler and forced termination -/

theorem handleClose_cs (st : ServerState) (c : Nat) :
    (handleClose st c).cs = st.cs := by
  rcases hsome : (st.cs c).roomName with _ | rn
  · simp [handleClose, hsome]
  · simp only [handleClose, hsome]
    by_cases h1 : rn = ""
    · rw [if_pos h1]
    · rw [if_neg h1]
      by_cases h2 : mapHas st.rooms rn = true
      · rw [if_pos h2]
      · rw [if_neg h2]

theorem handleClose_clients (st : ServerState) (c : Nat) :
    (handleClose st c).clients = st.clients := by
  rcases hsome : (st.cs c).roomName with _ | rn
  · simp [handleClose, hsome]
  · simp only [handleClose, hsome]
    by_cases h1 : rn = ""
    · rw [if_pos h1]
    · rw [if_neg h1]
      by_cases h2 : mapHas st.rooms rn = true
      · rw [if_pos h2]
      · rw [if_neg h2]

theorem mem_mapGet_handleClose {st : ServerState} {c d : Nat} {r : String}
    (hne : c ≠ d) (h : c ∈ mapGet st.rooms r) :
    c ∈ mapGet (handleClose st d).rooms r := by
  rcases hsome : (st.cs d).roomName with _ | rn
  · simp only [handleClose, hsome]
    exact h
  · simp only [handleClose, hsome]
    by_cases h1 : rn = ""
    · rw [if_pos h1]; exact h
    · rw [if_neg h1]
      by_cases h2 : mapHas st.rooms rn = true
      · rw [if_pos h2]
        dsimp only
        by_cases hlen : (setDelete (mapGet st.rooms rn) d).length = 0
        · rw [if_pos hlen]
          by_cases hr : r = rn
          · subst hr
            have hd : c ∈ setDelete (mapGet st.rooms r) d := mem_setDelete.mpr ⟨h, hne⟩
            have hne' : setDelete (mapGet st.rooms r) d ≠ [] := by
              intro hnil; rw [hnil] at hd; exact absurd hd (List.not_mem_nil c)
            exact absurd (List.length_eq_zero.mp hlen) hne'
          · rw [mapGet_mapDelete_ne hr]; exact h
        · rw [if_neg hlen]
          by_cases hr : r = rn
          · subst hr
            rw [mapGet_mapUpdate_self h2]
            exact mem_setDelete.mpr ⟨h, hne⟩
          · rw [mapGet_mapUpdate_ne hr]; exact h
      · rw [if_neg h2]; exact h

theorem not_mem_mapGet_handleClose {st : ServerState} {c d : Nat} {r : String}
    (h : c ∉ mapGet st.rooms r) :
    c ∉ mapGet (handleClose st d).rooms r := by
  rcases hsome : (st.cs d).roomName with _ | rn
  · simp only [handleClose, hsome]
    exact h
  · simp only [handleClose, hsome]
    by_cases h1 : rn = ""
    · rw [if_pos h1]; exact h
    · rw [if_neg h1]
      by_cases h2 : mapHas st.rooms rn = true
      · rw [if_pos h2]
        dsimp only
        by_cases hlen : (setDelete (mapGet st.rooms rn) d).length = 0
        · rw [if_pos hlen]
          by_cases hr : r = rn
          · subst hr
            rw [mapGet_mapDelete_self]
            exact List.not_mem_nil c
          · rw [mapGet_mapDelete_ne hr]; exact h
        · rw [if_neg hlen]
          by_cases hr : r = rn
          · subst hr
            rw [mapGet_mapUpdate_self h2]
            intro hc
            exact h (mem_setDelete.mp hc).1
          · rw [mapGet_mapUpdate_ne hr]; exact h
      · rw [if_neg h2]; exact h

theorem handleClose_self_not_mem {st : ServerState} {c : Nat} {r : String}
    (hrn : (st.cs c).roomName = some r) (hr : r ≠ "")
    (hhas : mapHas st.rooms r = true) :
    c ∉ mapGet (handleClose st c).rooms r := by
  simp only [handleClose, hrn]
  rw [if_neg hr, if_pos hhas]
  dsimp only
  by_cases hlen : (setDelete (mapGet st.rooms r) c).length = 0
  · rw [if_pos hlen, mapGet_mapDelete_self]
    exact List.not_mem_nil c
  · rw [if_neg hlen, mapGet_mapUpdate_self hhas]
    exact not_mem_setDelete_self

theorem terminateConn_cs_ne {st : ServerState} {c d : Nat} (h : d ≠ c) :
    (terminateConn st c).cs d = st.cs d := by
  unfold terminateConn
  rw [handleClose_cs]
  exact updateCS_cs_ne h

theorem terminateConn_cs_self (st : ServerState) (c : Nat) :
    (terminateConn st c).cs c = { st.cs c with readyState := ReadyState.CLOSED } := by
  unfold terminateConn
  rw [handleClose_cs]
  exact updateCS_cs_self _ c _

theorem terminateConn_clients (st : ServerState) (c : Nat) :
    (terminateConn st c).clients = st.clients.filter (fun d => decide (d ≠ c)) := by
  unfold terminateConn
  rw [handleClose_clients]
  rfl

theorem mem_rooms_terminateConn {st : ServerState} {c d : Nat} {r : String}
    (hne : c ≠ d) (h : c ∈ mapGet st.rooms r) :
    c ∈ mapGet (terminateConn st d).rooms r := by
  unfold terminateConn
  apply mem_mapGet_handleClose hne
  exact h

theorem not_mem_rooms_terminateConn {st : ServerState} {c d : Nat} {r : String}
    (h : c ∉ mapGet st.rooms r) :
    c ∉ mapGet (terminateConn st d).rooms r := by
  unfold terminateConn
  apply not_mem_mapGet_handleClose
  exact h

theorem terminateConn_self_not_mem {st : ServerState} {c : Nat} {r : String}
    (hrn : (st.cs c).roomName = some r) (hr : r ≠ "")
    (hhas : mapHas st.rooms r = true) :
    c ∉ mapGet (terminateConn st c).rooms r := by
  unfold terminateConn
  apply handleClose_self_not_mem
  · rw [updateCS_cs_self]
    exact congrArg ConnState.roomName (congrArg _ rfl) ▸ hrn
  · exact hr
  · exact hhas

/-! ### The code's sanitize chain equals the spec's single-pass escape -/

theorem replaceCharL_append (c : Char) (r : List Char) (x y : List Char) :
    replaceCharL c r (x ++ y) = replaceCharL c r x ++ replaceCharL c r y := by
  induction x with
  | nil => rfl
  | cons a l ih =>
      rw [List.cons_append, replaceCharL, replaceCharL, ih, List.append_assoc]

theorem sanitizeChainL (l : List Char) :
    replaceCharL '"' "&quot;".data
      (replaceCharL '>' "&gt;".data
        (replaceCharL '<' "&lt;".data
          (replaceCharL '&' "&amp;".data l))) = escapeL l := by
  induction l with
  | nil => rfl
  | cons a l ih =>
      rw [show replaceCharL '&' "&amp;".data (a :: l)
            = (if a = '&' then "&amp;".data else [a]) ++ replaceCharL '&' "&amp;".data l from rfl]
      rw [replaceCharL_append, replaceCharL_append, replaceCharL_append, ih, escapeL]
      congr 1
      by_cases h1 : a = '&'
      · subst h1; decide
      · by_cases h2 : a = '<'
        · subst h2; decide
        · by_cases h3 : a = '>'
          · subst h3; decide
          · by_cases h4 : a = '"'
            · subst h4; decide
            · rw [if_neg h1]
              rw [show replaceCharL '<' "&lt;".data [a]
                    = (if a = '<' then "&lt;".data else [a]) ++ [] from rfl]
              rw [if_neg h2, List.append_nil]
              rw [show replaceCharL '>' "&gt;".data [a]
                    = (if a = '>' then "&gt;".data else [a]) ++ [] from rfl]
              rw [if_neg h3, List.append_nil]
              rw [show replaceCharL '"' "&quot;".data [a]
                    = (if a = '"' then "&quot;".data else [a]) ++ [] from rfl]
              rw [if_neg h4, List.append_nil]
              rw [escChar, if_neg h1, if_neg h2, if_neg h3, if_neg h4]

theorem sanitize_str_eq_escapeSpec (s : String) :
    sanitize (JSVal.str s) = escapeSpec s := by
  show String.mk
      (replaceCharL '"' "&quot;".data
        (replaceCharL '>' "&gt;".data
          (replaceCharL '<' "&lt;".data
            (replaceCharL '&' "&amp;".data s.data)))) = escapeSpec s
  rw [sanitizeChainL]
  rfl

/-! ### Lemmas about one heartbeat sweep step -/

theorem sweepConn_cs_ne {p : ServerState × List Nat} {c d : Nat} (h : c ≠ d) :
    ((sweepConn p d).1).cs c = p.1.cs c := by
  unfold sweepConn
  by_cases hA : (p.1.cs d).isAlive = false
  · rw [if_pos hA]
    exact terminateConn_cs_ne h
  · rw [if_neg hA]
    dsimp only
    exact updateCS_cs_ne h

theorem sweepConn_clients_mem {p : ServerState × List Nat} {c d : Nat}
    (hc : c ∈ p.1.clients) (h : c ≠ d) : c ∈ (sweepConn p d).1.clients := by
  unfold sweepConn
  by_cases hA : (p.1.cs d).isAlive = false
  · rw [if_pos hA]
    dsimp only
    rw [terminateConn_clients]
    exact List.mem_filter.mpr ⟨hc, by simpa using h⟩
  · rw [if_neg hA]
    exact hc

theorem sweepConn_clients_not_mem {p : ServerState × List Nat} {c : Nat}
    (hc : c ∉ p.1.clients) (d : Nat) : c ∉ (sweepConn p d).1.clients := by
  unfold sweepConn
  by_cases hA : (p.1.cs d).isAlive = false
  · rw [if_pos hA]
    dsimp only
    rw [terminateConn_clients]
    intro hmem
    exact hc (List.mem_filter.mp hmem).1
  · rw [if_neg hA]
    exact hc

theorem sweepConn_clients_nodup {p : ServerState × List Nat}
    (h : p.1.clients.Nodup) (d : Nat) : (sweepConn p d).1.clients.Nodup := by
  unfold sweepConn
  by_cases hA : (p.1.cs d).isAlive = false
  · rw [if_pos hA]
    dsimp only
    rw [terminateConn_clients]
    exact h.filter _
  · rw [if_neg hA]
    exact h

theorem sweepConn_mem_room {p : ServerState × List Nat} {c d : Nat} {r : String}
    (h : c ∈ mapGet p.1.rooms r) (hne : c ≠ d) :
    c ∈ mapGet (sweepConn p d).1.rooms r := by
  unfold sweepConn
  by_cases hA : (p.1.cs d).isAlive = false
  · rw [if_pos hA]
    exact mem_rooms_terminateConn hne h
  · rw [if_neg hA]
    exact h

theorem sweepConn_not_mem_room {p : ServerState × List Nat} {c : Nat} {r : String}
    (h : c ∉ mapGet p.1.rooms r) (d : Nat) :
    c ∉ mapGet (sweepConn p d).1.rooms r := by
  unfold sweepConn
  by_cases hA : (p.1.cs d).isAlive = false
  · rw [if_pos hA]
    exact not_mem_rooms_terminateConn h
  · rw [if_neg hA]
    exact h

theorem sweepConn_pings_mono {p : ServerState × List Nat} {x : Nat} (d : Nat)
    (h : x ∈ p.2) : x ∈ (sweepConn p d).2 := by
  unfold sweepConn
  by_cases hA : (p.1.cs d).isAlive = false
  · rw [if_pos hA]
    exact h
  · rw [if_neg hA]
    exact List.mem_append_left _ h

theorem sweepConn_pings_src {p : ServerState × List Nat} {x d : Nat}
    (h : x ∈ (sweepConn p d).2) : x ∈ p.2 ∨ x = d := by
  unfold sweepConn at h
  by_cases hA : (p.1.cs d).isAlive = false
  · rw [if_pos hA] at h
    exact Or.inl h
  · rw [if_neg hA] at h
    rcases List.mem_append.mp h with h1 | h2
    · exact Or.inl h1
    · exact Or.inr (List.mem_singleton.mp h2)

/-! ### Lemmas about folding the sweep over a client list -/

theorem hbFold_cs_ne {c : Nat} :
    ∀ (ds : List Nat) (p : ServerState × List Nat), c ∉ ds →
      ((ds.foldl sweepConn p).1).cs c = p.1.cs c := by
  intro ds
  induction ds with
  | nil => intro p _; rfl
  | cons d ds ih =>
      intro p h
      have hne : c ≠ d := fun hh => h (hh ▸ List.mem_cons_self d ds)
      have hds : c ∉ ds := fun hh => h (List.mem_cons_of_mem d hh)
      rw [List.foldl_cons, ih _ hds, sweepConn_cs_ne hne]

theorem hbFold_clients_mem {c : Nat} :
    ∀ (ds : List Nat) (p : ServerState × List Nat), c ∉ ds → c ∈ p.1.clients →
      c ∈ (ds.foldl sweepConn p).1.clients := by
  intro ds
  induction ds with
  | nil => intro p _ hc; exact hc
  | cons d ds ih =>
      intro p h hc
      have hne : c ≠ d := fun hh => h (hh ▸ List.mem_cons_self d ds)
      have hds : c ∉ ds := fun hh => h (List.mem_cons_of_mem d hh)
      rw [List.foldl_cons]
      exact ih _ hds (sweepConn_clients_mem hc hne)

theorem hbFold_clients_not_mem {c : Nat} :
    ∀ (ds : List Nat) (p : ServerState × List Nat), c ∉ p.1.clients →
      c ∉ (ds.foldl sweepConn p).1.clients := by
  intro ds
  induction ds with
  | nil => intro p hc; exact hc
  | cons d ds ih =>
      intro p hc
      rw [List.foldl_cons]
      exact ih _ (sweepConn_clients_not_mem hc d)

theorem hbFold_clients_nodup :
    ∀ (ds : List Nat) (p : ServerState × List Nat), p.1.clients.Nodup →
      (ds.foldl sweepConn p).1.clients.Nodup := by
  intro ds
  induction ds with
  | nil => intro p h; exact h
  | cons d ds ih =>
      intro p h
      rw [List.foldl_cons]
      exact ih _ (sweepConn_clients_nodup h d)

theorem hbFold_mem_room {c : Nat} {r : String} :
    ∀ (ds : List Nat) (p : ServerState × List Nat), c ∉ ds → c ∈ mapGet p.1.rooms r →
      c ∈ mapGet (ds.foldl sweepConn p).1.rooms r := by
  intro ds
  induction ds with
  | nil => intro p _ hc; exact hc
  | cons d ds ih =>
      intro p h hc
      have hne : c ≠ d := fun hh => h (hh ▸ List.mem_cons_self d ds)
      have hds : c ∉ ds := fun hh => h (List.mem_cons_of_mem d hh)
      rw [List.foldl_cons]
      exact ih _ hds (sweepConn_mem_room hc hne)

theorem hbFold_not_mem_room {c : Nat} {r : String} :
    ∀ (ds : List Nat) (p : ServerState × List Nat), c ∉ mapGet p.1.rooms r →
      c ∉ mapGet (ds.foldl sweepConn p).1.rooms r := by
  intro ds
  induction ds with
  | nil => intro p hc; exact hc
  | cons d ds ih =>
      intro p hc
      rw [List.foldl_cons]
      exact ih _ (sweepConn_not_mem_room hc d)

theorem hbFold_pings_mono {x : Nat} :
    ∀ (ds : List Nat) (p : ServerState × List Nat), x ∈ p.2 →
      x ∈ (ds.foldl sweepConn p).2 := by
  intro ds
  induction ds with
  | nil => intro p h; exact h
  | cons d ds ih =>
      intro p h
      rw [List.foldl_cons]
      exact ih _ (sweepConn_pings_mono d h)

theorem hbFold_pings_src {x : Nat} :
    ∀ (ds : List Nat) (p : ServerState × List Nat),
      x ∈ (ds.foldl sweepConn p).2 → x ∈ p.2 ∨ x ∈ ds := by
  intro ds
  induction ds with
  | nil => intro p h; exact Or.inl h
  | cons d ds ih =>
      intro p h
      rw [List.foldl_cons] at h
      rcases ih _ h with h1 | h2
      · rcases sweepConn_pings_src h1 with h3 | h4
        · exact Or.inl h3
        · exact Or.inr (h4 ▸ List.mem_cons_self d ds)
      · exact Or.inr (List.mem_cons_of_mem d h2)

/-! ### Equation lemmas for the chat branch of the message handler -/

theorem chat_ratelimited_eq {st : ServerState} {c now : Nat} {payload : Option Payload}
    (h : now - (st.cs c).lastMessageTime < MESSAGE_COOLDOWN_MS) :
    handleMessage st c now (Frame.chat payload) = ⟨st, [], false⟩ := by
  simp only [handleMessage, if_pos h]

theorem chat_none_eq {st : ServerState} {c now : Nat}
    (h : ¬(now - (st.cs c).lastMessageTime < MESSAGE_COOLDOWN_MS)) :
    handleMessage st c now (Frame.chat none) =
      ⟨updateCS st c (fun s => { s with lastMessageTime := now }), [], true⟩ := by
  simp only [handleMessage, if_neg h]

theorem chat_noroom_eq {st : ServerState} {c now : Nat} {p : Payload}
    (h : ¬(now - (st.cs c).lastMessageTime < MESSAGE_COOLDOWN_MS))
    (hno : (st.cs c).roomName = none ∨
       ∃ r, (st.cs c).roomName = some r ∧ (r = "" ∨ mapHas st.rooms r = false)) :
    handleMessage st c now (Frame.chat (some p)) =
      ⟨updateCS st c (fun s => { s with lastMessageTime := now }), [], false⟩ := by
  have hcs : ((updateCS st c (fun s => { s with lastMessageTime := now })).cs c).roomName
      = (st.cs c).roomName := by
    rw [updateCS_cs_self]
  simp only [handleMessage, if_neg h]
  rcases hno with hrn | ⟨r, hrn, hcase⟩
  · rw [hcs.trans hrn]
  · rw [hcs.trans hrn]
    rcases hcase with hre | hhas
    · dsimp only
      rw [if_pos hre]
    · dsimp only
      by_cases hre : r = ""
      · rw [if_pos hre]
      · rw [if_neg hre]
        have hhas1 : ¬(mapHas (updateCS st c
            (fun s => { s with lastMessageTime := now })).rooms r = true) := by
          rw [updateCS_rooms, hhas]
          simp
        rw [if_neg hhas1]

theorem chat_broadcast_eq {st : ServerState} {c now : Nat} {p : Payload} {r : String}
    (h : ¬(now - (st.cs c).lastMessageTime < MESSAGE_COOLDOWN_MS))
    (hrn : (st.cs c).roomName = some r) (hr : ¬(r = ""))
    (hhas : mapHas st.rooms r = true) :
    handleMessage st c now (Frame.chat (some p)) =
      ⟨updateCS st c (fun s => { s with lastMessageTime := now }),
       [(stringifyPayload (sanitizePayload p),
         (mapGet st.rooms r).filter (fun m => (st.cs m).readyState == ReadyState.OPEN))],
       false⟩ := by
  have hcs : ((updateCS st c (fun s => { s with lastMessageTime := now })).cs c).roomName
      = (st.cs c).roomName := by
    rw [updateCS_cs_self]
  simp only [handleMessage, if_neg h]
  rw [hcs.trans hrn]
  dsimp only
  rw [if_neg hr]
  have hhas1 : mapHas (updateCS st c
      (fun s => { s with lastMessageTime := now })).rooms r = true := by
    rw [updateCS_rooms]
    exact hhas
  rw [if_pos hhas1]
  have hfil : (mapGet (updateCS st c (fun s => { s with lastMessageTime := now })).rooms r).filter
        (fun m => ((updateCS st c (fun s => { s with lastMessageTime := now })).cs m).readyState
          == ReadyState.OPEN)
      = (mapGet st.rooms r).filter (fun m => (st.cs m).readyState == ReadyState.OPEN) := by
    rw [updateCS_rooms]
    apply List.filter_congr
    intro m _
    by_cases hm : m = c
    · subst hm
      rw [updateCS_cs_self]
    · rw [updateCS_cs_ne hm]
  rw [hfil]

/-! ### Equation lemmas for the join branch of the message handler -/

theorem join_from_room_eq {st : ServerState} {c : Nat} {A : String}
    (now : Nat) (B : String)
    (hrn : (st.cs c).roomName = some A) (hA : ¬(A = ""))
    (hhasA : mapHas st.rooms A = true) :
    handleMessage st c now (Frame.join B) =
      ⟨{ updateCS st c (fun s => { s with roomName := some B }) with
         rooms := mapUpdate
           (if mapHas (mapUpdate st.rooms A (fun s => setDelete s c)) B
            then mapUpdate st.rooms A (fun s => setDelete s c)
            else mapSetNew (mapUpdate st.rooms A (fun s => setDelete s c)) B)
           B (fun s => setAdd s c) }, [], false⟩ := by
  simp only [handleMessage, hrn]
  rw [if_neg hA, if_pos hhasA]

theorem join_no_old_eq {st : ServerState} {c : Nat} (now : Nat) (B : String)
    (h : (st.cs c).roomName = none ∨
      ∃ rn, (st.cs c).roomName = some rn ∧ (rn = "" ∨ mapHas st.rooms rn = false)) :
    handleMessage st c now (Frame.join B) =
      ⟨{ updateCS st c (fun s => { s with roomName := some B }) with
         rooms := mapUpdate
           (if mapHas st.rooms B then st.rooms else mapSetNew st.rooms B)
           B (fun s => setAdd s c) }, [], false⟩ := by
  rcases h with hrn | ⟨rn, hrn, hcase⟩
  · simp only [handleMessage, hrn]
  · simp only [handleMessage, hrn]
    rcases hcase with hre | hhas
    · rw [if_pos hre]
    · by_cases hre : rn = ""
      · rw [if_pos hre]
      · rw [if_neg hre, if_neg (by rw [hhas]; simp : ¬(mapHas st.rooms rn = true))]

/-! ## Claim theorems -/

/-- C7: the upgrade gate admits a request exactly when the declared `Origin`
header is absent/empty or character-for-character equal to an allow-list
entry; otherwise it writes a 401 response and destroys the socket, and no
open connection is created for the attempt. -/
theorem origin_gate_policy (o : Option String) :
    ((handleUpgrade o).connectionCreated = true ↔
      (o = none ∨ o = some "" ∨ ∃ e ∈ ALLOWED_ORIGINS, o = some e))
    ∧ ((handleUpgrade o).connectionCreated = false →
        (handleUpgrade o).wrote401 = true ∧ (handleUpgrade o).socketDestroyed = true)
    ∧ ((handleUpgrade o).connectionCreated = true →
        (handleUpgrade o).wrote401 = false ∧ (handleUpgrade o).socketDestroyed = false) := by
  rcases o with _ | s
  · refine ⟨?_, ?_, ?_⟩
    · simp [handleUpgrade, originIncluded, originTruthy]
    · intro h
      simp [handleUpgrade, originIncluded, originTruthy] at h
    · intro _
      exact ⟨rfl, rfl⟩
  · by_cases hs : s = ""
    · subst hs
      refine ⟨?_, ?_, ?_⟩
      · simp [handleUpgrade, originIncluded, originTruthy]
      · intro h
        simp [handleUpgrade, originIncluded, originTruthy] at h
      · intro _
        exact ⟨rfl, rfl⟩
    · by_cases hin : s ∈ ALLOWED_ORIGINS
      · have hinc : originIncluded (some s) = true := by
          simp [originIncluded, List.contains, List.elem_iff, hin]
        refine ⟨?_, ?_, ?_⟩
        · simp only [handleUpgrade, hinc, Bool.not_true, Bool.false_and, Bool.false_eq_true,
            if_false]
          constructor
          · intro _
            exact Or.inr (Or.inr ⟨s, hin, rfl⟩)
          · intro _
            trivial
        · intro h
          simp only [handleUpgrade, hinc, Bool.not_true, Bool.false_and, Bool.false_eq_true,
            if_false] at h
          exact absurd h (by simp)
        · intro _
          simp only [handleUpgrade, hinc, Bool.not_true, Bool.false_and, Bool.false_eq_true,
            if_false]
          exact ⟨trivial, trivial⟩
      · have hinc : originIncluded (some s) = false := by
          simp [originIncluded, List.contains, List.elem_iff, hin]
        have htr : originTruthy (some s) = true := by
          simp [originTruthy, hs]
        have hcond : (!originIncluded (some s) && originTruthy (some s)) = true := by
          rw [hinc, htr]
          rfl
        refine ⟨?_, ?_, ?_⟩
        · simp only [handleUpgrade, hcond, if_true]
          constructor
          · intro h
            exact absurd h (by simp)
          · rintro (h | h | ⟨e, he, hee⟩)
            · exact absurd h (by simp)
            · exact absurd (Option.some.inj h) hs
            · exact absurd (Option.some.inj hee ▸ he) hin
        · intro _
          simp only [handleUpgrade, hcond, if_true]
          exact ⟨trivial, trivial⟩
        · intro h
          simp only [handleUpgrade, hcond, if_true] at h
          exact absurd h (by simp)

/-- C7 witness: a request with no `Origin` header is admitted; evaluated at
`none` through the gate theorem. -/
theorem origin_gate_policy_witness :
    (handleUpgrade none).connectionCreated = true :=
  (origin_gate_policy none).1.mpr (Or.inl rfl)

/-- C4: the chat pipeline's text sanitization, as a function of the payload:
a string `text` gets exactly the single-pass escape with ampersand first
(`sanitize` equals the simultaneous substitution `escapeSpec`); absent or
falsy `text` is untouched; a truthy non-string `text` is coerced to the
explicit empty string by the sanitizer's string contract; `sender` and all
other payload fields are never modified; `<script>` and `a & b` escape as
the spec requires. -/
theorem sanitize_pipeline_spec (p : Payload) :
    ((sanitizePayload p).sender = p.sender)
    ∧ ((sanitizePayload p).rest = p.rest)
    ∧ (∀ s, p.text = some (JSVal.str s) →
        (sanitizePayload p).text = some (JSVal.str (escapeSpec s)))
    ∧ (p.text = none → (sanitizePayload p).text = none)
    ∧ (∀ v, p.text = some v → truthy v = false → (sanitizePayload p).text = some v)
    ∧ (∀ v, p.text = some v → (∀ s, v ≠ JSVal.str s) → truthy v = true →
        (sanitizePayload p).text = some (JSVal.str ""))
    ∧ sanitize (JSVal.str "<script>") = "&lt;script&gt;"
    ∧ sanitize (JSVal.str "a & b") = "a &amp; b" := by
  refine ⟨?_, ?_, ?_, ?_, ?_, ?_, by decide, by decide⟩
  · rcases ht : p.text with _ | v
    · simp [sanitizePayload, ht]
    · by_cases htr : truthy v = true
      · simp [sanitizePayload, ht, htr]
      · simp [sanitizePayload, ht, htr]
  · rcases ht : p.text with _ | v
    · simp [sanitizePayload, ht]
    · by_cases htr : truthy v = true
      · simp [sanitizePayload, ht, htr]
      · simp [sanitizePayload, ht, htr]
  · intro s hs
    by_cases hse : s = ""
    · subst hse
      have htr : truthy (JSVal.str "") = false := by decide
      simp [sanitizePayload, hs, htr]
      rfl
    · have htr : truthy (JSVal.str s) = true := by
        simp [truthy, hse]
      simp [sanitizePayload, hs, htr]
      exact sanitize_str_eq_escapeSpec s
  · intro h
    simp [sanitizePayload, h]
  · intro v hv htr
    simp [sanitizePayload, hv, htr]
  · intro v hv hns htr
    simp [sanitizePayload, hv, htr]
    cases v with
    | str s => exact absurd rfl (hns s)
    | num n => rfl
    | jbool b => rfl
    | null => rfl

/-- C4 witness: the general string case of the sanitization theorem applied
at the concrete payload with text `a & b`. -/
theorem sanitize_pipeline_spec_witness :
    (sanitizePayload ⟨some (JSVal.str "bob"), some (JSVal.str "a & b"), []⟩).text
      = some (JSVal.str (escapeSpec "a & b")) :=
  (sanitize_pipeline_spec ⟨some (JSVal.str "bob"), some (JSVal.str "a & b"), []⟩).2.2.1
    "a & b" rfl

/-- C3: for a connection in a room, a first chat that clears the cooldown
broadcasts once; a second chat strictly less than 1000 ms later is dropped
silently — no broadcast, no error, and no state change beyond the first
message's `lastMessageTime` — while a second chat at least 1000 ms later
broadcasts as well, for two broadcasts in total. -/
theorem chat_cooldown_broadcast_counts (st : ServerState) (c : Nat) (r : String)
    (t1 t2 : Nat) (p1 p2 : Payload)
    (hrn : (st.cs c).roomName = some r) (hr : r ≠ "")
    (hhas : mapHas st.rooms r = true)
    (hrate1 : MESSAGE_COOLDOWN_MS ≤ t1 - (st.cs c).lastMessageTime) :
    ((handleMessage st c t1 (Frame.chat (some p1))).broadcasts.length = 1)
    ∧ (t2 - t1 < MESSAGE_COOLDOWN_MS →
        (handleMessage (handleMessage st c t1 (Frame.chat (some p1))).st c t2
            (Frame.chat (some p2))).broadcasts = []
        ∧ (handleMessage (handleMessage st c t1 (Frame.chat (some p1))).st c t2
            (Frame.chat (some p2))).st
            = (handleMessage st c t1 (Frame.chat (some p1))).st
        ∧ (handleMessage (handleMessage st c t1 (Frame.chat (some p1))).st c t2
            (Frame.chat (some p2))).caughtError = false)
    ∧ (MESSAGE_COOLDOWN_MS ≤ t2 - t1 →
        (handleMessage (handleMessage st c t1 (Frame.chat (some p1))).st c t2
            (Frame.chat (some p2))).broadcasts.length = 1) := by
  have hnl1 : ¬(t1 - (st.cs c).lastMessageTime < MESSAGE_COOLDOWN_MS) := by omega
  have heq1 := chat_broadcast_eq (p := p1) hnl1 hrn hr hhas
  have hlast : ((handleMessage st c t1 (Frame.chat (some p1))).st.cs c).lastMessageTime = t1 := by
    rw [heq1, updateCS_cs_self]
  have hrn1 : ((handleMessage st c t1 (Frame.chat (some p1))).st.cs c).roomName = some r := by
    rw [heq1, updateCS_cs_self]
    exact hrn
  have hhas1 : mapHas (handleMessage st c t1 (Frame.chat (some p1))).st.rooms r = true := by
    rw [heq1, updateCS_rooms]
    exact hhas
  refine ⟨?_, ?_, ?_⟩
  · rw [heq1]
    rfl
  · intro h2
    have hlt : t2 - ((handleMessage st c t1 (Frame.chat (some p1))).st.cs c).lastMessageTime
        < MESSAGE_COOLDOWN_MS := by
      rw [hlast]
      exact h2
    rw [chat_ratelimited_eq hlt]
    exact ⟨rfl, rfl, rfl⟩
  · intro h3
    have hnl2 : ¬(t2 - ((handleMessage st c t1 (Frame.chat (some p1))).st.cs c).lastMessageTime
        < MESSAGE_COOLDOWN_MS) := by
      rw [hlast]
      omega
    rw [chat_broadcast_eq (p := p2) hnl2 hrn1 hr hhas1]
    rfl

/-- C3 witness: at the concrete state, the first chat at t=1500 broadcasts
once and the second at t=1800 (300 ms later) is dropped with no state
change. -/
theorem chat_cooldown_broadcast_counts_witness :
    ((handleMessage wStRoom 0 1500 (Frame.chat (some ⟨none, none, []⟩))).broadcasts.length = 1)
    ∧ (handleMessage (handleMessage wStRoom 0 1500 (Frame.chat (some ⟨none, none, []⟩))).st 0 1800
        (Frame.chat (some ⟨none, none, []⟩))).broadcasts = [] := by
  have h := chat_cooldown_broadcast_counts wStRoom 0 "R" 1500 1800
    ⟨none, none, []⟩ ⟨none, none, []⟩ rfl (by decide) (by decide) (by decide)
  exact ⟨h.1, (h.2.1 (by decide)).1⟩

/-- C5: a chat broadcast goes to exactly the members of the sender's current
room whose transport is `OPEN` — the sender included when it is such a
member — members in any non-open state are silently skipped, and all
recipients receive the single serialized message string computed for the
broadcast. -/
theorem chat_broadcast_recipients (st : ServerState) (c now : Nat) (p : Payload) (r : String)
    (hrn : (st.cs c).roomName = some r) (hr : r ≠ "")
    (hhas : mapHas st.rooms r = true)
    (hrate : MESSAGE_COOLDOWN_MS ≤ now - (st.cs c).lastMessageTime) :
    ((handleMessage st c now (Frame.chat (some p))).broadcasts
      = [(stringifyPayload (sanitizePayload p),
          (mapGet st.rooms r).filter (fun m => (st.cs m).readyState == ReadyState.OPEN))])
    ∧ (∀ m, m ∈ (mapGet st.rooms r).filter (fun m => (st.cs m).readyState == ReadyState.OPEN)
        ↔ m ∈ mapGet st.rooms r ∧ (st.cs m).readyState = ReadyState.OPEN)
    ∧ ((st.cs c).readyState = ReadyState.OPEN → c ∈ mapGet st.rooms r →
        c ∈ (mapGet st.rooms r).filter (fun m => (st.cs m).readyState == ReadyState.OPEN))
    ∧ (∀ m, m ∈ mapGet st.rooms r → (st.cs m).readyState ≠ ReadyState.OPEN →
        m ∉ (mapGet st.rooms r).filter (fun m => (st.cs m).readyState == ReadyState.OPEN)) := by
  have hnl : ¬(now - (st.cs c).lastMessageTime < MESSAGE_COOLDOWN_MS) := by omega
  refine ⟨chat_broadcast_eq hnl hrn hr hhas ▸ rfl, ?_, ?_, ?_⟩
  · intro m
    simp [List.mem_filter]
  · intro hopen hmem
    exact List.mem_filter.mpr ⟨hmem, by simp [hopen]⟩
  · intro m _ hnopen hmem
    exact hnopen (by simpa using (List.mem_filter.mp hmem).2)

/-- C5 witness: at the concrete state (sender 0 open and in room R), the
broadcast carries one message string and sender 0 is among the recipients. -/
theorem chat_broadcast_recipients_witness :
    ((handleMessage wStRoom 0 1500 (Frame.chat (some ⟨none, none, []⟩))).broadcasts
      = [(stringifyPayload (sanitizePayload ⟨none, none, []⟩),
          (mapGet wStRoom.rooms "R").filter
            (fun m => (wStRoom.cs m).readyState == ReadyState.OPEN))])
    ∧ 0 ∈ (mapGet wStRoom.rooms "R").filter
        (fun m => (wStRoom.cs m).readyState == ReadyState.OPEN) := by
  have h := chat_broadcast_recipients wStRoom 0 1500 ⟨none, none, []⟩ "R"
    rfl (by decide) (by decide) (by decide)
  exact ⟨h.1, h.2.2.1 rfl (by decide)⟩

/-- C8: a chat from a connection with no current room (or whose recorded room
is absent from the directory) that clears the rate limit is dropped with no
broadcast and no error, the directory and client set are unchanged and the
connection stays open — but `lastMessageTime` is still updated to `now`, so
the dropped message consumes the cooldown window. -/
theorem chat_without_room_dropped (st : ServerState) (c now : Nat) (p : Payload)
    (hrate : MESSAGE_COOLDOWN_MS ≤ now - (st.cs c).lastMessageTime)
    (hno : (st.cs c).roomName = none ∨
        ∃ r, (st.cs c).roomName = some r ∧ mapHas st.rooms r = false) :
    ((handleMessage st c now (Frame.chat (some p))).broadcasts = [])
    ∧ ((handleMessage st c now (Frame.chat (some p))).caughtError = false)
    ∧ ((handleMessage st c now (Frame.chat (some p))).st.rooms = st.rooms)
    ∧ ((handleMessage st c now (Frame.chat (some p))).st.clients = st.clients)
    ∧ (((handleMessage st c now (Frame.chat (some p))).st.cs c).readyState
        = (st.cs c).readyState)
    ∧ (((handleMessage st c now (Frame.chat (some p))).st.cs c).roomName
        = (st.cs c).roomName)
    ∧ (((handleMessage st c now (Frame.chat (some p))).st.cs c).lastMessageTime = now)
    ∧ (∀ d, d ≠ c → (handleMessage st c now (Frame.chat (some p))).st.cs d = st.cs d) := by
  have hnl : ¬(now - (st.cs c).lastMessageTime < MESSAGE_COOLDOWN_MS) := by omega
  have hno' : (st.cs c).roomName = none ∨
      ∃ r, (st.cs c).roomName = some r ∧ (r = "" ∨ mapHas st.rooms r = false) := by
    rcases hno with h1 | ⟨r, h1, h2⟩
    · exact Or.inl h1
    · exact Or.inr ⟨r, h1, Or.inr h2⟩
  have heq := chat_noroom_eq (p := p) hnl hno'
  rw [heq]
  refine ⟨rfl, rfl, rfl, rfl, ?_, ?_, ?_, ?_⟩
  · rw [updateCS_cs_self]
  · rw [updateCS_cs_self]
  · rw [updateCS_cs_self]
  · intro d hd
    dsimp only
    exact updateCS_cs_ne hd

/-- C8 witness: at the concrete roomless state, a chat at t=1500 produces no
broadcast yet sets `lastMessageTime` to 1500. -/
theorem chat_without_room_dropped_witness :
    ((handleMessage wStNoRoom 0 1500 (Frame.chat (some ⟨none, none, []⟩))).broadcasts = [])
    ∧ (((handleMessage wStNoRoom 0 1500
        (Frame.chat (some ⟨none, none, []⟩))).st.cs 0).lastMessageTime = 1500) := by
  have h := chat_without_room_dropped wStNoRoom 0 1500 ⟨none, none, []⟩
    (by decide) (Or.inl rfl)
  exact ⟨h.1, h.2.2.2.2.2.2.1⟩

/-- C9: an undecodable frame, and a chat frame whose `payload` field is
missing, are dropped per message: no broadcast, nothing sent to the peer,
the connection's transport state, the directory and the client set are
unchanged, and the thrown error is caught by the handler's try/catch rather
than propagating. -/
theorem malformed_frame_dropped (st : ServerState) (c now : Nat) :
    ((handleMessage st c now Frame.malformed).st = st)
    ∧ ((handleMessage st c now Frame.malformed).broadcasts = [])
    ∧ ((handleMessage st c now Frame.malformed).caughtError = true)
    ∧ ((handleMessage st c now (Frame.chat none)).broadcasts = [])
    ∧ (((handleMessage st c now (Frame.chat none)).st.cs c).readyState
        = (st.cs c).readyState)
    ∧ ((handleMessage st c now (Frame.chat none)).st.rooms = st.rooms)
    ∧ ((handleMessage st c now (Frame.chat none)).st.clients = st.clients)
    ∧ (MESSAGE_COOLDOWN_MS ≤ now - (st.cs c).lastMessageTime →
        (handleMessage st c now (Frame.chat none)).caughtError = true) := by
  refine ⟨rfl, rfl, rfl, ?_, ?_, ?_, ?_, ?_⟩ <;>
    by_cases hlt : now - (st.cs c).lastMessageTime < MESSAGE_COOLDOWN_MS
  · rw [chat_ratelimited_eq hlt]
  · rw [chat_none_eq hlt]
  · rw [chat_ratelimited_eq hlt]
  · rw [chat_none_eq hlt, updateCS_cs_self]
  · rw [chat_ratelimited_eq hlt]
  · rw [chat_none_eq hlt, updateCS_rooms]
  · rw [chat_ratelimited_eq hlt]
  · rw [chat_none_eq hlt, updateCS_clients]
  · intro hge
    exact absurd hlt (by omega)
  · intro _
    rw [chat_none_eq hlt]

/-- C9 witness: at the concrete state, a chat frame with missing payload at
t=1500 yields no broadcast and a caught (not propagated) error. -/
theorem malformed_frame_dropped_witness :
    ((handleMessage wStRoom 0 1500 (Frame.chat none)).broadcasts = [])
    ∧ ((handleMessage wStRoom 0 1500 (Frame.chat none)).caughtError = true) := by
  have h := malformed_frame_dropped wStRoom 0 1500
  exact ⟨h.2.2.2.1, h.2.2.2.2.2.2.2 (by decide)⟩

/-- C1 counterexample: with connection 0 the sole member of room A, a join
of room B empties room A's member set, yet room A's directory entry is NOT
deleted — refuting the claim's deletion clause at this concrete input. -/
theorem join_does_not_delete_empty_room_cex :
    (mapGet (handleMessage wStA 0 5000 (Frame.join "B")).st.rooms "A" = [])
    ∧ (mapHas (handleMessage wStA 0 5000 (Frame.join "B")).st.rooms "A" = true) := by
  decide

/-- C1 amended: a join for room B removes the connection from room A's
member set and adds it to room B's member set (creating B if absent), and
afterwards the connection's recorded room is B and it is a member of exactly
room B; room A's directory entry, however, is never deleted by the join
branch — it remains in the directory even when its member set has become
empty. -/
theorem join_moves_connection_amended (st : ServerState) (c now : Nat) (A B : String)
    (hrn : (st.cs c).roomName = some A) (hA : A ≠ "")
    (hmem : c ∈ mapGet st.rooms A)
    (honly : ∀ k, k ≠ A → c ∉ mapGet st.rooms k) :
    (((handleMessage st c now (Frame.join B)).st.cs c).roomName = some B)
    ∧ (∀ k, c ∈ mapGet (handleMessage st c now (Frame.join B)).st.rooms k ↔ k = B)
    ∧ (mapHas (handleMessage st c now (Frame.join B)).st.rooms A = true)
    ∧ (A ≠ B → c ∉ mapGet (handleMessage st c now (Frame.join B)).st.rooms A)
    ∧ (∀ d, d ≠ c → (handleMessage st c now (Frame.join B)).st.cs d = st.cs d) := by
  have hhasA : mapHas st.rooms A = true := mapHas_of_mem_mapGet hmem
  have heq := join_from_room_eq now B hrn hA hhasA
  have hget1A : mapGet (mapUpdate st.rooms A (fun s => setDelete s c)) A
      = setDelete (mapGet st.rooms A) c := mapGet_mapUpdate_self hhasA
  have hget1 : ∀ k, k ≠ A →
      mapGet (mapUpdate st.rooms A (fun s => setDelete s c)) k = mapGet st.rooms k :=
    fun k hk => mapGet_mapUpdate_ne hk
  have hnot1 : ∀ k, c ∉ mapGet (mapUpdate st.rooms A (fun s => setDelete s c)) k := by
    intro k
    by_cases hk : k = A
    · subst hk
      rw [hget1A]
      exact not_mem_setDelete_self
    · rw [hget1 k hk]
      exact honly k hk
  have hhas1A : mapHas (mapUpdate st.rooms A (fun s => setDelete s c)) A = true := by
    rw [mapHas_mapUpdate]
    exact hhasA
  have hiff : ∀ k, c ∈ mapGet (handleMessage st c now (Frame.join B)).st.rooms k ↔ k = B := by
    intro k
    rw [heq]
    dsimp only
    by_cases hB : mapHas (mapUpdate st.rooms A (fun s => setDelete s c)) B = true
    · rw [if_pos hB]
      by_cases hk : k = B
      · subst hk
        rw [mapGet_mapUpdate_self hB]
        simp [mem_setAdd]
      · rw [mapGet_mapUpdate_ne hk]
        simp only [hk, iff_false]
        exact hnot1 k
    · rw [if_neg hB]
      by_cases hk : k = B
      · subst hk
        rw [mapGet_mapUpdate_self (mapHas_mapSetNew_self _ _)]
        simp [mem_setAdd]
      · rw [mapGet_mapUpdate_ne hk, mapGet_mapSetNew_ne hk]
        simp only [hk, iff_false]
        exact hnot1 k
  refine ⟨?_, hiff, ?_, ?_, ?_⟩
  · rw [heq]
    dsimp only
    rw [updateCS_cs_self]
  · rw [heq]
    dsimp only
    rw [mapHas_mapUpdate]
    by_cases hB : mapHas (mapUpdate st.rooms A (fun s => setDelete s c)) B = true
    · rw [if_pos hB]
      exact hhas1A
    · rw [if_neg hB]
      exact mapHas_mapSetNew_of hhas1A
  · intro hAB
    intro hc
    exact hAB ((hiff A).mp hc)
  · intro d hd
    rw [heq]
    dsimp only
    exact updateCS_cs_ne hd

/-- C1 amended witness: at the concrete state with connection 0 sole member
of room A, the join of room B leaves 0 a member of exactly room B while room
A's (now empty) entry persists. -/
theorem join_moves_connection_amended_witness :
    (((handleMessage wStA 0 5000 (Frame.join "B")).st.cs 0).roomName = some "B")
    ∧ (0 ∈ mapGet (handleMessage wStA 0 5000 (Frame.join "B")).st.rooms "B")
    ∧ (mapHas (handleMessage wStA 0 5000 (Frame.join "B")).st.rooms "A" = true)
    ∧ (0 ∉ mapGet (handleMessage wStA 0 5000 (Frame.join "B")).st.rooms "A") := by
  have h := join_moves_connection_amended wStA 0 5000 "A" "B" rfl (by decide)
    (by decide)
    (by
      intro k hk
      have hne : ¬(("A" : String) = k) := fun h => hk h.symm
      simp [wStA, mapGet, hne])
  exact ⟨h.1, (h.2.1 "B").mpr rfl, h.2.2.1, h.2.2.2.1 (by decide)⟩

/-- C2: the zero-member-room invariant fails on a reachable state — starting
from the empty server, admitting connection 0, joining room A and then room
B leaves room A present in the directory with an empty member set, because
the join branch performs no empty-room cleanup. -/
theorem empty_room_persists_reachable :
    (mapHas reachAB.rooms "A" = true) ∧ (mapGet reachAB.rooms "A" = []) := by
  decide

/-- C10: a join for the room the connection is already a member of leaves
the directory unchanged as a set structure — the connection remains a member
of that room exactly once, its recorded room stays the same, every other
room's member list is literally unchanged, and no connection's fields
change. -/
theorem join_same_room_idempotent (st : ServerState) (c now : Nat) (r : String)
    (hrn : (st.cs c).roomName = some r)
    (hmem : c ∈ mapGet st.rooms r)
    (hnd : (mapGet st.rooms r).Nodup) :
    (((handleMessage st c now (Frame.join r)).st.cs c).roomName = some r)
    ∧ (∀ x, x ∈ mapGet (handleMessage st c now (Frame.join r)).st.rooms r
        ↔ x ∈ mapGet st.rooms r)
    ∧ ((mapGet (handleMessage st c now (Frame.join r)).st.rooms r).count c = 1)
    ∧ (∀ k, k ≠ r → mapGet (handleMessage st c now (Frame.join r)).st.rooms k
        = mapGet st.rooms k)
    ∧ (∀ d, (handleMessage st c now (Frame.join r)).st.cs d = st.cs d)
    ∧ ((handleMessage st c now (Frame.join r)).st.clients = st.clients) := by
  have hhas : mapHas st.rooms r = true := mapHas_of_mem_mapGet hmem
  have hcsc : ∀ d, (updateCS st c (fun s => { s with roomName := some r })).cs d = st.cs d := by
    intro d
    by_cases hd : d = c
    · subst hd
      rw [updateCS_cs_self, ← hrn]
    · exact updateCS_cs_ne hd
  by_cases hre : r = ""
  · have heq := join_no_old_eq now r (Or.inr ⟨r, hrn, Or.inl hre⟩)
    have hget : mapGet (handleMessage st c now (Frame.join r)).st.rooms r
        = mapGet st.rooms r := by
      rw [heq]
      dsimp only
      rw [if_pos hhas, mapGet_mapUpdate_self hhas, setAdd_of_mem hmem]
    refine ⟨?_, ?_, ?_, ?_, ?_, ?_⟩
    · rw [heq]
      dsimp only
      rw [updateCS_cs_self]
    · intro x
      rw [hget]
    · rw [hget]
      exact List.count_eq_one_of_mem hnd hmem
    · intro k hk
      rw [heq]
      dsimp only
      rw [if_pos hhas, mapGet_mapUpdate_ne hk]
    · intro d
      rw [heq]
      dsimp only
      exact hcsc d
    · rw [heq]
      rfl
  · have heq := join_from_room_eq now r hrn hre hhas
    have hhas1 : mapHas (mapUpdate st.rooms r (fun s => setDelete s c)) r = true := by
      rw [mapHas_mapUpdate]
      exact hhas
    have hget : mapGet (handleMessage st c now (Frame.join r)).st.rooms r
        = setAdd (setDelete (mapGet st.rooms r) c) c := by
      rw [heq]
      dsimp only
      rw [if_pos hhas1, mapGet_mapUpdate_self hhas1, mapGet_mapUpdate_self hhas]
    refine ⟨?_, ?_, ?_, ?_, ?_, ?_⟩
    · rw [heq]
      dsimp only
      rw [updateCS_cs_self]
    · intro x
      rw [hget]
      rw [mem_setAdd, mem_setDelete]
      constructor
      · rintro (⟨hx, _⟩ | rfl)
        · exact hx
        · exact hmem
      · intro hx
        by_cases hxc : x = c
        · exact Or.inr hxc
        · exact Or.inl ⟨hx, hxc⟩
    · rw [hget]
      exact count_setAdd_setDelete _ _
    · intro k hk
      rw [heq]
      dsimp only
      rw [if_pos hhas1, mapGet_mapUpdate_ne hk, mapGet_mapUpdate_ne hk]
    · intro d
      rw [heq]
      dsimp only
      exact hcsc d
    · rw [heq]
      rfl

/-- C10 witness: at the concrete state with connection 0 already in room R,
a second join of R leaves the directory and the connection unchanged. -/
theorem join_same_room_idempotent_witness :
    (((handleMessage wStRoom 0 5000 (Frame.join "R")).st.cs 0).roomName = some "R")
    ∧ ((mapGet (handleMessage wStRoom 0 5000 (Frame.join "R")).st.rooms "R").count 0 = 1)
    ∧ ((handleMessage wStRoom 0 5000 (Frame.join "R")).st.clients = wStRoom.clients) := by
  have h := join_same_room_idempotent wStRoom 0 5000 "R" rfl (by decide) (by decide)
  exact ⟨h.1, h.2.2.1, h.2.2.2.2.2⟩

/-- C6: under the sweep/acknowledgment step relation, a sweep probes each
live connection after clearing its flag and terminates each connection whose
flag is still down; a pong acknowledgment raises the flag; hence a
connection that acknowledges no probe across two consecutive sweeps is
probed in the first, terminated in the second (without being probed again),
and removed from its room's member set by the close transition. -/
theorem heartbeat_two_cycle_eviction (st : ServerState) (c : Nat) (r : String)
    (hcl : c ∈ st.clients) (hnd : st.clients.Nodup)
    (halive : (st.cs c).isAlive = true)
    (hrn : (st.cs c).roomName = some r) (hr : r ≠ "")
    (hmem : c ∈ mapGet st.rooms r) :
    (((heartbeat st).1.cs c).isAlive = false)
    ∧ (c ∈ (heartbeat st).2)
    ∧ (((heartbeat (heartbeat st).1).1.cs c).readyState = ReadyState.CLOSED)
    ∧ (c ∉ (heartbeat (heartbeat st).1).1.clients)
    ∧ (c ∉ mapGet (heartbeat (heartbeat st).1).1.rooms r)
    ∧ (c ∉ (heartbeat (heartbeat st).1).2)
    ∧ (∀ s d, ((handlePong s d).cs d).isAlive = true) := by
  obtain ⟨m1, m2, hsplit⟩ := List.append_of_mem hcl
  have hnd1 : (m1 ++ c :: m2).Nodup := hsplit ▸ hnd
  obtain ⟨hndm1, hndc2, hdisj⟩ := List.nodup_append.mp hnd1
  have hcm2 : c ∉ m2 := (List.nodup_cons.mp hndc2).1
  have hcm1 : c ∉ m1 := fun h => hdisj h (List.mem_cons_self c m2)
  have hqcs : (m1.foldl sweepConn (st, [])).1.cs c = st.cs c :=
    hbFold_cs_ne m1 (st, []) hcm1
  have hcond1 : ¬(((m1.foldl sweepConn (st, [])).1.cs c).isAlive = false) := by
    rw [hqcs, halive]
    simp
  have hsc : sweepConn (m1.foldl sweepConn (st, [])) c
      = (updateCS (m1.foldl sweepConn (st, [])).1 c (fun s => { s with isAlive := false }),
         (m1.foldl sweepConn (st, [])).2 ++ [c]) := by
    rw [sweepConn, if_neg hcond1]
  have hhb1 : heartbeat st
      = m2.foldl sweepConn
          (updateCS (m1.foldl sweepConn (st, [])).1 c (fun s => { s with isAlive := false }),
           (m1.foldl sweepConn (st, [])).2 ++ [c]) := by
    rw [heartbeat, hsplit, List.foldl_append, List.foldl_cons, hsc]
  have hq'cs : (updateCS (m1.foldl sweepConn (st, [])).1 c
        (fun s => { s with isAlive := false })).cs c
      = { st.cs c with isAlive := false } := by
    rw [updateCS_cs_self, hqcs]
  have ho1cs : (heartbeat st).1.cs c = { st.cs c with isAlive := false } := by
    rw [hhb1, hbFold_cs_ne m2 _ hcm2]
    exact hq'cs
  have ho1mem : c ∈ mapGet (heartbeat st).1.rooms r := by
    rw [hhb1]
    apply hbFold_mem_room m2 _ hcm2
    show c ∈ mapGet (updateCS (m1.foldl sweepConn (st, [])).1 c
      (fun s => { s with isAlive := false })).rooms r
    rw [updateCS_rooms]
    exact hbFold_mem_room m1 (st, []) hcm1 hmem
  have ho1cl : c ∈ (heartbeat st).1.clients := by
    rw [hhb1]
    apply hbFold_clients_mem m2 _ hcm2
    show c ∈ (updateCS (m1.foldl sweepConn (st, [])).1 c
      (fun s => { s with isAlive := false })).clients
    rw [updateCS_clients]
    exact hbFold_clients_mem m1 (st, []) hcm1 hcl
  have ho1nd : (heartbeat st).1.clients.Nodup := by
    rw [hhb1]
    apply hbFold_clients_nodup
    show (updateCS (m1.foldl sweepConn (st, [])).1 c
      (fun s => { s with isAlive := false })).clients.Nodup
    rw [updateCS_clients]
    exact hbFold_clients_nodup m1 (st, []) hnd
  obtain ⟨n1, n2, hsplit2⟩ := List.append_of_mem ho1cl
  have hnd2 : (n1 ++ c :: n2).Nodup := hsplit2 ▸ ho1nd
  obtain ⟨hndn1, hndcn2, hdisj2⟩ := List.nodup_append.mp hnd2
  have hcn2 : c ∉ n2 := (List.nodup_cons.mp hndcn2).1
  have hcn1 : c ∉ n1 := fun h => hdisj2 h (List.mem_cons_self c n2)
  have hq2cs : (n1.foldl sweepConn ((heartbeat st).1, [])).1.cs c
      = { st.cs c with isAlive := false } := by
    rw [hbFold_cs_ne n1 _ hcn1]
    exact ho1cs
  have hq2mem : c ∈ mapGet (n1.foldl sweepConn ((heartbeat st).1, [])).1.rooms r :=
    hbFold_mem_room n1 _ hcn1 ho1mem
  have hcond2 : ((n1.foldl sweepConn ((heartbeat st).1, [])).1.cs c).isAlive = false := by
    rw [hq2cs]
  have hsc2 : sweepConn (n1.foldl sweepConn ((heartbeat st).1, [])) c
      = (terminateConn (n1.foldl sweepConn ((heartbeat st).1, [])).1 c,
         (n1.foldl sweepConn ((heartbeat st).1, [])).2) := by
    rw [sweepConn, if_pos hcond2]
  have hhb2 : heartbeat (heartbeat st).1
      = n2.foldl sweepConn
          (terminateConn (n1.foldl sweepConn ((heartbeat st).1, [])).1 c,
           (n1.foldl sweepConn ((heartbeat st).1, [])).2) := by
    rw [heartbeat, hsplit2, List.foldl_append, List.foldl_cons, hsc2]
  have hq2rn : ((n1.foldl sweepConn ((heartbeat st).1, [])).1.cs c).roomName = some r := by
    rw [hq2cs]
    exact hrn
  have htcl : c ∉ (terminateConn (n1.foldl sweepConn ((heartbeat st).1, [])).1 c).clients := by
    rw [terminateConn_clients]
    intro h
    have h2 := (List.mem_filter.mp h).2
    simp at h2
  have htmem : c ∉ mapGet
      (terminateConn (n1.foldl sweepConn ((heartbeat st).1, [])).1 c).rooms r :=
    terminateConn_self_not_mem hq2rn hr (mapHas_of_mem_mapGet hq2mem)
  refine ⟨?_, ?_, ?_, ?_, ?_, ?_, ?_⟩
  · rw [ho1cs]
  · rw [hhb1]
    apply hbFold_pings_mono m2
    exact List.mem_append_right _ (List.mem_singleton.mpr rfl)
  · rw [hhb2, hbFold_cs_ne n2 _ hcn2, terminateConn_cs_self]
  · rw [hhb2]
    exact hbFold_clients_not_mem n2 _ htcl
  · rw [hhb2]
    exact hbFold_not_mem_room n2 _ htmem
  · rw [hhb2]
    intro hc
    rcases hbFold_pings_src n2 _ hc with h1 | h2
    · rcases hbFold_pings_src n1 _ h1 with h3 | h4
      · exact absurd h3 (List.not_mem_nil c)
      · exact hcn1 h4
    · exact hcn2 h2
  · intro s d
    rw [handlePong, updateCS_cs_self]

/-- C6 witness: at the concrete state with connection 0 alive, open and in
room R, the first sweep probes it and clears its flag, and with no pong the
second sweep terminates it and removes it from room R. -/
theorem heartbeat_two_cycle_eviction_witness :
    (((heartbeat wStRoom).1.cs 0).isAlive = false)
    ∧ (0 ∈ (heartbeat wStRoom).2)
    ∧ (((heartbeat (heartbeat wStRoom).1).1.cs 0).readyState = ReadyState.CLOSED)
    ∧ (0 ∉ mapGet (heartbeat (heartbeat wStRoom).1).1.rooms "R") := by
  have h := heartbeat_two_cycle_eviction wStRoom 0 "R" (by decide) (by decide)
    rfl rfl (by decide) (by decide)
  exact ⟨h.1, h.2.1, h.2.2.1, h.2.2.2.2.1⟩

end WsChat
